import Mathlib

/-!
Verification of the bounded geometric image-augmentation pipeline of
`packages/ml-core/dist/augmentation.js` against its specification.

The JavaScript code is shallowly embedded: a TensorFlow `Tensor3D` of shape
`[h, w, 1]` holding intensities becomes an `Image` (dimensions plus a pixel
function into `ℚ`); JavaScript numbers become `ℚ`; a thrown `Error` becomes
the `Except.error` branch of `Except AugError`; `Math.random()` draws and
`tf.randomNormal` draws are passed in explicitly (a uniform draw as a `ℚ`
assumed in `[0, 1)` where needed, a standard-normal field as a function
`ℕ → ℕ → ℚ` scaled by the code's standard deviation, since
`randomNormal(shape, 0, σ)` is distributed as `σ ·` a standard normal draw).
`clone()` has value semantics, so it is the identity; `tidy`/`dispose` only
manage GPU memory and are no-ops at the value level.

Integer-valued quantities the code always uses as integers (pixel shifts and
the shift sampling range) are embedded as `ℤ`, since `tf.pad3d` only accepts
integral padding amounts.
-/

/-- A single-channel image: a tensor of shape `[h, w, 1]`.  `pix y x` is the
intensity at row `y`, column `x`; values at indices outside `[0,h) × [0,w)`
are irrelevant (every operation reads only in-bounds pixels and every
statement constrains only in-bounds pixels). -/
structure Image where
  h : ℕ
  w : ℕ
  pix : ℕ → ℕ → ℚ

/-- A `{min, max}` range object, as used for rotation / zoom / shear. -/
structure AxisRange where
  min : ℚ
  max : ℚ
  deriving DecidableEq

/-- A `{width, height}` shift-range object (used only for sampling). -/
structure ShiftRange where
  width : ℤ
  height : ℤ
  deriving DecidableEq

/-- Errors of the embedded code.  `rangeViolation p v lo hi` embeds the
thrown `Error` whose message names the parameter/axis `p`, the offending
value `v` and the permitted bounds `[lo, hi]` (the JS message templates are
`"Rotation ${v}° exceeds maximum ±15°"`,
`"Width shift ${v}px exceeds maximum ±4px"`,
`"Height shift ${v}px exceeds maximum ±4px"`,
`"Zoom ${v} outside valid range [0.8, 1.2]"` and
`"Shear ${v} outside valid range [-0.2, 0.2]"`).  `sliceOOB` embeds the
error `tf.slice3d` itself throws when the requested window exceeds the
tensor extent. -/
inductive AugError where
  | rangeViolation (param : String) (value : ℚ) (lo hi : ℚ)
  | sliceOOB
  deriving DecidableEq

/-- `clipByValue(0, 1)` on one scalar. -/
def clip01 (q : ℚ) : ℚ := min 1 (max 0 q)

/-- `tf.pad3d(img, [[top, bottom], [left, right], [0, 0]], 0)`:
zero-padding on the four sides. -/
def Image.pad (img : Image) (top bottom left right : ℕ) : Image :=
  ⟨top + img.h + bottom, left + img.w + right, fun y x =>
    if top ≤ y ∧ y < top + img.h ∧ left ≤ x ∧ x < left + img.w then
      img.pix (y - top) (x - left)
    else 0⟩

/-- `tf.slice3d(img, [by, bx, 0], [sy, sx, 1])`: the window of size
`sy × sx` starting at `(by, bx)`; `tf` throws when the window exceeds the
tensor, embedded as `AugError.sliceOOB`. -/
def Image.slice (img : Image) (b₁ b₂ sy sx : ℕ) : Except AugError Image :=
  if b₁ + sy ≤ img.h ∧ b₂ + sx ≤ img.w then
    .ok ⟨sy, sx, fun y x => img.pix (b₁ + y) (b₂ + x)⟩
  else .error .sliceOOB

/-- `tf.image.resizeBilinear(img, [nh, nw])` with the tfjs defaults
(`alignCorners = false`, `halfPixelCenters = false`): the source fractional
row for output row `r` is `r * h / nh`; the four neighbours (floor clamped
below by 0, ceil clamped above by `size - 1`) are blended with the
fractional parts. -/
def Image.resizeBilinear (img : Image) (nh nw : ℕ) : Image :=
  ⟨nh, nw, fun r c =>
    let fr : ℚ := (r : ℚ) * (img.h : ℚ) / (nh : ℚ)
    let fc : ℚ := (c : ℚ) * (img.w : ℚ) / (nw : ℚ)
    let r0 : ℕ := (⌊fr⌋).toNat
    let r1 : ℕ := min (img.h - 1) (⌈fr⌉).toNat
    let c0 : ℕ := (⌊fc⌋).toNat
    let c1 : ℕ := min (img.w - 1) (⌈fc⌉).toNat
    let dr : ℚ := fr - (⌊fr⌋ : ℚ)
    let dc : ℚ := fc - (⌊fc⌋ : ℚ)
    let tl := img.pix r0 c0
    let tr := img.pix r0 c1
    let bl := img.pix r1 c0
    let br := img.pix r1 c1
    let top := tl + (tr - tl) * dc
    let bot := bl + (br - bl) * dc
    top + (bot - top) * dr⟩

/-- `rotateAugmentation(imageData, angle, angleRange = {min:-15, max:15})`.
`rand` is the `Math.random()` draw used when `angle` is absent; `gauss` is
the standard-normal field behind `tf.randomNormal(shape, 0, noiseAmount)`.
The code validates only against the hard bound `MAX_ROTATION = 15`; for
`|angle| < 0.1` it returns a clone; otherwise it adds Gaussian noise of
standard deviation `|angle| / 100` and clips to `[0, 1]` (it performs no
geometric rotation). -/
def rotateAugmentation (imageData : Image) (angle : Option ℚ)
    (angleRange : AxisRange) (rand : ℚ) (gauss : ℕ → ℕ → ℚ) :
    Except AugError Image :=
  let rotationAngle :=
    angle.getD (rand * (angleRange.max - angleRange.min) + angleRange.min)
  if 15 < |rotationAngle| then
    .error (.rangeViolation "Rotation" rotationAngle (-15) 15)
  else if |rotationAngle| < 1/10 then
    .ok imageData
  else
    let noiseAmount := |rotationAngle| / 100
    .ok ⟨imageData.h, imageData.w, fun y x =>
      clip01 (imageData.pix y x + noiseAmount * gauss y x)⟩

/-- `shiftAugmentation(imageData, shift, shiftRange = {width:4, height:4})`.
`shiftW`/`shiftH` are `shift?.width` / `shift?.height`; `randW`/`randH` the
`Math.random()` draws used when absent (sample
`⌊rand * (2·range + 1)⌋ - range`).  Validation is against the hard bound
`MAX_SHIFT_PIXELS = 4` per axis, width first.  The code pads by the signed
shift (positive pads top/left, negative pads bottom/right) and then slices
the `28 × 28` window at the origin (`CANVAS_SIZE = 28` is hard-coded). -/
def shiftAugmentation (imageData : Image) (shiftW shiftH : Option ℤ)
    (shiftRange : ShiftRange) (randW randH : ℚ) : Except AugError Image :=
  let widthShift :=
    shiftW.getD (⌊randW * ((shiftRange.width * 2 + 1 : ℤ) : ℚ)⌋ - shiftRange.width)
  let heightShift :=
    shiftH.getD (⌊randH * ((shiftRange.height * 2 + 1 : ℤ) : ℚ)⌋ - shiftRange.height)
  if 4 < |widthShift| then
    .error (.rangeViolation "Width shift" (widthShift : ℚ) (-4) 4)
  else if 4 < |heightShift| then
    .error (.rangeViolation "Height shift" (heightShift : ℚ) (-4) 4)
  else
    let top := if 0 < heightShift then heightShift.toNat else 0
    let bottom := if heightShift < 0 then (-heightShift).toNat else 0
    let left := if 0 < widthShift then widthShift.toNat else 0
    let right := if widthShift < 0 then (-widthShift).toNat else 0
    let padded := imageData.pad top bottom left right
    padded.slice 0 0 28 28

/-- JavaScript `Math.round` on a nonnegative number: `⌊q + 1/2⌋`. -/
def jsRound (q : ℚ) : ℤ := ⌊q + 1/2⌋

/-- `zoomAugmentation(imageData, zoomFactor, zoomRange = {min:0.8, max:1.2})`.
`rand` is the `Math.random()` draw used when `zoomFactor` is absent.
Validation is against the hard bounds `MIN_ZOOM = 0.8`, `MAX_ZOOM = 1.2`;
`|zoom - 1| < 0.001` clones; otherwise the image is resized bilinearly to
`round(28 · zoom)` square (`CANVAS_SIZE = 28` hard-coded) and centre-cropped
(`zoom > 1`) or zero-padded (`zoom < 1`) back to `28 × 28`.  In the pad
branch `newSize ≤ 28` always holds (`zoom ≤ 1 - 0.001` there), so the `ℕ`
subtractions agree with the JS arithmetic; `cropStart` and `padAmount` use
`Math.floor`, which is `ℕ` division here. -/
def zoomAugmentation (imageData : Image) (zoomFactor : Option ℚ)
    (zoomRange : AxisRange) (rand : ℚ) : Except AugError Image :=
  let zoom := zoomFactor.getD (rand * (zoomRange.max - zoomRange.min) + zoomRange.min)
  if zoom < 4/5 ∨ 6/5 < zoom then
    .error (.rangeViolation "Zoom" zoom (4/5) (6/5))
  else if |zoom - 1| < 1/1000 then
    .ok imageData
  else
    let newSize := (jsRound (28 * zoom)).toNat
    let resized := imageData.resizeBilinear newSize newSize
    if 1 < zoom then
      let cropStart := (newSize - 28) / 2
      resized.slice cropStart cropStart 28 28
    else
      let padAmount := (28 - newSize) / 2
      .ok (resized.pad padAmount (28 - newSize - padAmount)
        padAmount (28 - newSize - padAmount))

/-- `shearAugmentation(imageData, shearFactor, shearRange = {min:-0.2, max:0.2})`.
Validation is against the hard bounds `±0.2`; `|shear| < 0.001` clones;
otherwise the code adds Gaussian noise of standard deviation `|shear| · 0.1`
and clips to `[0, 1]` (it performs no affine shear). -/
def shearAugmentation (imageData : Image) (shearFactor : Option ℚ)
    (shearRange : AxisRange) (rand : ℚ) (gauss : ℕ → ℕ → ℚ) :
    Except AugError Image :=
  let shear := shearFactor.getD (rand * (shearRange.max - shearRange.min) + shearRange.min)
  if shear < -1/5 ∨ 1/5 < shear then
    .error (.rangeViolation "Shear" shear (-1/5) (1/5))
  else if |shear| < 1/1000 then
    .ok imageData
  else
    let noiseAmount := |shear| * (1/10)
    .ok ⟨imageData.h, imageData.w, fun y x =>
      clip01 (imageData.pix y x + noiseAmount * gauss y x)⟩

/-- The `AugmentationConfig` interface: each range optional; a missing field
makes the corresponding call fall back to that transform's default range
(JS default parameters apply to an `undefined` argument). -/
structure AugmentationConfig where
  rotationRange : Option AxisRange
  shiftRange : Option ShiftRange
  zoomRange : Option AxisRange
  shearRange : Option AxisRange

/-- The empty config `{}`. -/
def AugmentationConfig.empty : AugmentationConfig := ⟨none, none, none, none⟩

/-- The randomness one `augmentImage` call consumes: a uniform draw and a
standard-normal field per stage that samples. -/
structure Draws where
  rotR : ℚ
  rotG : ℕ → ℕ → ℚ
  shearR : ℚ
  shearG : ℕ → ℕ → ℚ
  zoomR : ℚ
  shiftRW : ℚ
  shiftRH : ℚ

/-- `augmentImage(imageData, config = {})`: rotation, then shear, then zoom,
then shift, each stage on the previous stage's output, each with no explicit
parameter (so it samples) and with the config's range for that stage or the
transform's default range when absent.  A thrown error propagates unchanged
(the initial `clone()` and the `dispose()` calls are value-level no-ops). -/
def augmentImage (imageData : Image) (config : AugmentationConfig)
    (rd : Draws) : Except AugError Image :=
  (rotateAugmentation imageData none (config.rotationRange.getD ⟨-15, 15⟩)
      rd.rotR rd.rotG).bind fun rotated =>
  (shearAugmentation rotated none (config.shearRange.getD ⟨-1/5, 1/5⟩)
      rd.shearR rd.shearG).bind fun sheared =>
  (zoomAugmentation sheared none (config.zoomRange.getD ⟨4/5, 6/5⟩)
      rd.zoomR).bind fun zoomed =>
  shiftAugmentation zoomed none none (config.shiftRange.getD ⟨4, 4⟩)
    rd.shiftRW rd.shiftRH

/-- The all-black `n × n` image. -/
def zeroImage (n : ℕ) : Image := ⟨n, n, fun _ _ => 0⟩

/-- A `28 × 28` test image with a single bright pixel at row 1, column 0. -/
def onePixelImage : Image := ⟨28, 28, fun y x => if y = 1 ∧ x = 0 then 1 else 0⟩

/-- Image equality in the sense of the spec (value semantics on the tensor):
equal dimensions and equal intensity at every in-bounds index. -/
def Image.eqv (a b : Image) : Prop :=
  a.h = b.h ∧ a.w = b.w ∧ ∀ y < a.h, ∀ x < a.w, a.pix y x = b.pix y x

instance (a b : Image) : Decidable (a.eqv b) := by
  unfold Image.eqv; infer_instance

/-- Whether the embedded call returned normally (no thrown error). -/
def augOk (e : Except AugError Image) : Bool :=
  match e with
  | .ok _ => true
  | .error _ => false

/-- The dimensions of a successful result, `none` on a thrown error. -/
def resultDims (e : Except AugError Image) : Option (ℕ × ℕ) :=
  match e with
  | .ok out => some (out.h, out.w)
  | .error _ => none

/-- Translation of image content by `(wSh, hSh)` pixels with newly exposed
pixels set to background 0, as the spec describes the shift transform
(positive width shift moves content right, positive height shift moves
content down). -/
def translateSpec (img : Image) (wSh hSh : ℤ) : Image :=
  ⟨img.h, img.w, fun y x =>
    let sy : ℤ := (y : ℤ) - hSh
    let sx : ℤ := (x : ℤ) - wSh
    if 0 ≤ sy ∧ sy < (img.h : ℤ) ∧ 0 ≤ sx ∧ sx < (img.w : ℤ) then
      img.pix sy.toNat sx.toNat
    else 0⟩

/-- The pixel at `(y, x)` of a successful result, `none` on a thrown error. -/
def resultPix (e : Except AugError Image) (y x : ℕ) : Option ℚ :=
  match e with
  | .ok out => some (out.pix y x)
  | .error _ => none

/-- A successful result equals (in the `Image.eqv` sense) the given image;
a thrown error does not. -/
def resultEqv (e : Except AugError Image) (b : Image) : Prop :=
  match e with
  | .ok out => out.eqv b
  | .error _ => False

/-- All in-bounds intensities lie in the unit interval `[0, 1]`. -/
def Image.inUnit (img : Image) : Prop :=
  ∀ y < img.h, ∀ x < img.w, 0 ≤ img.pix y x ∧ img.pix y x ≤ 1

/-- A successful result has all in-bounds intensities in `[0, 1]`; a thrown
error produced no image at all. -/
def resultInUnit (e : Except AugError Image) : Prop :=
  match e with
  | .ok out => out.inUnit
  | .error _ => True

/-- All `Math.random()` draws of one `augmentImage` call lie in `[0, 1)`. -/
def DrawsInRange (rd : Draws) : Prop :=
  0 ≤ rd.rotR ∧ rd.rotR < 1 ∧ 0 ≤ rd.shearR ∧ rd.shearR < 1 ∧
    0 ≤ rd.zoomR ∧ rd.zoomR < 1 ∧ 0 ≤ rd.shiftRW ∧ rd.shiftRW < 1 ∧
    0 ≤ rd.shiftRH ∧ rd.shiftRH < 1

/-- A concrete draw bundle: every uniform draw 0, every normal field 0. -/
def drawsZero : Draws := ⟨0, fun _ _ => 0, 0, fun _ _ => 0, 0, 0, 0⟩

/-- A concrete draw bundle: every uniform draw 1/2, every normal field 0
(the sampled angle and shear are then 0 and the sampled zoom 1, so every
stage of `augmentImage` with the default config takes its clone path). -/
def drawsHalf : Draws := ⟨1/2, fun _ _ => 0, 1/2, fun _ _ => 0, 1/2, 1/2, 1/2⟩

/-- The configuration with every range collapsed to the identity: rotation
range `{0,0}`, shift range `{width:0, height:0}`, zoom range `{1,1}`, shear
range `{0,0}`. -/
def collapsedConfig : AugmentationConfig :=
  ⟨some ⟨0, 0⟩, some ⟨0, 0⟩, some ⟨1, 1⟩, some ⟨0, 0⟩⟩

/-- A uniform draw `r ∈ [0, 1)` mapped affinely onto `[lo, hi]` lands in
`[lo, hi]` (with `hi` itself attained only in the degenerate case). -/
theorem sample_mem_Icc (lo hi r : ℚ) (hr0 : 0 ≤ r) (hr1 : r < 1)
    (hlh : lo ≤ hi) :
    lo ≤ r * (hi - lo) + lo ∧ r * (hi - lo) + lo ≤ hi := by
  constructor
  · nlinarith
  · nlinarith

/-- Every in-range resolved rotation angle gives a normal return whose
dimensions are the input's (both the `clone` path and the noise path). -/
theorem rotate_resolved_ok (img : Image) (af : Option ℚ) (rg : AxisRange)
    (r : ℚ) (g : ℕ → ℕ → ℚ)
    (hle : |af.getD (r * (rg.max - rg.min) + rg.min)| ≤ 15) :
    ∃ out, rotateAugmentation img af rg r g = .ok out ∧
      out.h = img.h ∧ out.w = img.w := by
  unfold rotateAugmentation
  rw [if_neg (by simpa using not_lt.mpr hle)]
  by_cases h : |af.getD (r * (rg.max - rg.min) + rg.min)| < 1/10
  · rw [if_pos h]; exact ⟨img, rfl, rfl, rfl⟩
  · rw [if_neg h]; exact ⟨_, rfl, rfl, rfl⟩

/-- Every in-range resolved shear factor gives a normal return whose
dimensions are the input's. -/
theorem shear_resolved_ok (img : Image) (sf : Option ℚ) (rg : AxisRange)
    (r : ℚ) (g : ℕ → ℕ → ℚ)
    (hlo : -1/5 ≤ sf.getD (r * (rg.max - rg.min) + rg.min))
    (hhi : sf.getD (r * (rg.max - rg.min) + rg.min) ≤ 1/5) :
    ∃ out, shearAugmentation img sf rg r g = .ok out ∧
      out.h = img.h ∧ out.w = img.w := by
  unfold shearAugmentation
  rw [if_neg (by push_neg; constructor <;> [linarith; linarith])]
  by_cases h : |sf.getD (r * (rg.max - rg.min) + rg.min)| < 1/1000
  · rw [if_pos h]; exact ⟨img, rfl, rfl, rfl⟩
  · rw [if_neg h]; exact ⟨_, rfl, rfl, rfl⟩

/-- Every in-range pair of resolved shifts on an image at least `28 × 28`
gives a normal return of dimensions exactly `28 × 28`. -/
theorem shift_resolved_ok (img : Image) (sw sh : Option ℤ) (srg : ShiftRange)
    (rw rh : ℚ)
    (hw : |sw.getD (⌊rw * ((srg.width * 2 + 1 : ℤ) : ℚ)⌋ - srg.width)| ≤ 4)
    (hh : |sh.getD (⌊rh * ((srg.height * 2 + 1 : ℤ) : ℚ)⌋ - srg.height)| ≤ 4)
    (hH : 28 ≤ img.h) (hW : 28 ≤ img.w) :
    ∃ out, shiftAugmentation img sw sh srg rw rh = .ok out ∧
      out.h = 28 ∧ out.w = 28 := by
  unfold shiftAugmentation
  rw [if_neg (not_lt.mpr hw), if_neg (not_lt.mpr hh)]
  unfold Image.pad Image.slice
  rw [if_pos (by constructor <;> simp <;> omega)]
  exact ⟨_, rfl, rfl, rfl⟩

/-- In the enlarge branch (`zoom ≥ 1.001` after the clone test) the resized
side `round(28·zoom)` is at least 28. -/
theorem zoom_newSize_ge (z : ℚ) (hne : ¬|z - 1| < 1/1000) (hgt : 1 < z) :
    28 ≤ (jsRound (28 * z)).toNat := by
  have h1 : (1 : ℚ)/1000 ≤ z - 1 := by
    have h := not_lt.mp hne
    rwa [abs_of_pos (by linarith)] at h
  have h2 : (28 : ℤ) ≤ jsRound (28 * z) := by
    unfold jsRound
    apply Int.le_floor.mpr
    push_cast
    linarith
  omega

/-- In the shrink branch (`zoom ≤ 0.999` after the clone test) the resized
side `round(28·zoom)` is at most 28. -/
theorem zoom_newSize_le (z : ℚ) (hne : ¬|z - 1| < 1/1000) (hle : ¬1 < z) :
    (jsRound (28 * z)).toNat ≤ 28 := by
  have h0 : z - 1 ≤ 0 := by linarith [not_lt.mp hle]
  have h1 : (1 : ℚ)/1000 ≤ 1 - z := by
    have h := not_lt.mp hne
    rw [abs_of_nonpos h0] at h
    linarith
  have h2 : jsRound (28 * z) < 29 := by
    unfold jsRound
    apply Int.floor_lt.mpr
    push_cast
    linarith
  omega

/-- For any in-range zoom the resized side is positive. -/
theorem zoom_newSize_pos (z : ℚ) (hlo : 4/5 ≤ z) :
    0 < (jsRound (28 * z)).toNat := by
  have h2 : (1 : ℤ) ≤ jsRound (28 * z) := by
    unfold jsRound
    apply Int.le_floor.mpr
    push_cast
    linarith
  omega

/-- Every in-range resolved zoom factor gives a normal return: the `clone`
path returns the input itself and both geometric paths return a `28 × 28`
image, for an input of any dimensions. -/
theorem zoom_resolved_ok (img : Image) (zf : Option ℚ) (rg : AxisRange)
    (r : ℚ)
    (hlo : 4/5 ≤ zf.getD (r * (rg.max - rg.min) + rg.min))
    (hhi : zf.getD (r * (rg.max - rg.min) + rg.min) ≤ 6/5) :
    ∃ out, zoomAugmentation img zf rg r = .ok out ∧
      (out = img ∨ (out.h = 28 ∧ out.w = 28)) := by
  unfold zoomAugmentation
  rw [if_neg (by push_neg; exact ⟨hlo, hhi⟩)]
  by_cases hc : |zf.getD (r * (rg.max - rg.min) + rg.min) - 1| < 1/1000
  · rw [if_pos hc]
    exact ⟨img, rfl, Or.inl rfl⟩
  · rw [if_neg hc]
    by_cases hgt : 1 < zf.getD (r * (rg.max - rg.min) + rg.min)
    · rw [if_pos hgt]
      have h28 := zoom_newSize_ge _ hc hgt
      unfold Image.slice
      rw [if_pos (by
        simp only [Image.resizeBilinear]
        omega)]
      exact ⟨_, rfl, Or.inr ⟨rfl, rfl⟩⟩
    · rw [if_neg hgt]
      have hle28 := zoom_newSize_le _ hc hgt
      refine ⟨_, rfl, Or.inr ⟨?_, ?_⟩⟩ <;>
        simp only [Image.pad, Image.resizeBilinear] <;> omega

/-- **C1.** The claim says `rotate` returns the input geometrically rotated
by `angle` about the centre with background fill 0, a pure copy being
allowed only for `|angle|` below ≈0.1°.  The code performs no rotation: a
geometric rotation with 0-fill maps the all-zero image to the all-zero image
(each output pixel resamples zero content or background), but at the
explicit in-range angle 15° the code adds clipped Gaussian noise
(`clip₀₁(p + (|angle|/100)·g)`); with a unit normal field it sends the
all-zero `28 × 28` image to the constant-`3/20` image, so pixel `(0,0)` of
the output is `3/20 ≠ 0`.  The code's own comment marks the noise as a
placeholder for "a proper rotation implementation", so the claim is right
and the code wrong. -/
theorem C1_rotate_noise_not_geometric_rotation :
    resultPix (rotateAugmentation (zeroImage 28) (some 15) ⟨-15, 15⟩ 0
      (fun _ _ => 1)) 0 0 = some (3/20) ∧ (3/20 : ℚ) ≠ 0 := by
  refine ⟨?_, by norm_num⟩
  norm_num [rotateAugmentation, resultPix, zeroImage, clip01]

/-- **C2.** The claim says `shear` returns the input transformed by the
affine shear `x' = x + s·y`, `y' = y` with background fill 0.  The code
performs no shear: the affine shear with 0-fill maps the all-zero image to
the all-zero image, but at the explicit in-range factor 0.2 the code adds
clipped Gaussian noise (`clip₀₁(p + (|s|·0.1)·g)`); with a unit normal
field pixel `(0,0)` of the output on the all-zero image is `1/50 ≠ 0`. -/
theorem C2_shear_noise_not_affine_shear :
    resultPix (shearAugmentation (zeroImage 28) (some (1/5)) ⟨-1/5, 1/5⟩ 0
      (fun _ _ => 1)) 0 0 = some (1/50) ∧ (1/50 : ℚ) ≠ 0 := by
  have habs : |(1 : ℚ)/5| = 1/5 := by norm_num
  refine ⟨?_, by norm_num⟩
  norm_num [shearAugmentation, resultPix, zeroImage, clip01, habs]

/-- **C9.** The claim says `shift` is equivalent to translating the content
by `(w, h)` with exposed pixels 0.  For positive shifts the code's
pad-then-crop-at-the-origin does translate, but for a negative shift it
pads on the bottom/right and still crops at the origin, so the content does
not move.  On the image with its single bright pixel at row 1, column 0,
shifting by `(0, -1)` should move the pixel up to row 0 (so the spec-side
translation has pixel `(0,0) = 1` and `(1,0) = 0`), but the code returns
the input unchanged: pixel `(0,0) = 0` and pixel `(1,0) = 1`. -/
theorem C9_shift_negative_does_not_translate :
    resultPix (shiftAugmentation onePixelImage (some 0) (some (-1)) ⟨4, 4⟩ 0 0) 0 0
        = some 0 ∧
      resultPix (shiftAugmentation onePixelImage (some 0) (some (-1)) ⟨4, 4⟩ 0 0) 1 0
        = some 1 ∧
      (translateSpec onePixelImage 0 (-1)).pix 0 0 = 1 ∧
      (translateSpec onePixelImage 0 (-1)).pix 1 0 = 0 := by
  refine ⟨?_, ?_, ?_, ?_⟩ <;>
    norm_num [shiftAugmentation, resultPix, onePixelImage, translateSpec,
      Image.pad, Image.slice]

/-- **C3 (counterexample).** The claim says an explicit value is validated
against a caller-supplied custom range.  With the custom range `[-5, 5]`
(strictly inside the domain bound ±15) and the explicit angle 10 (outside
the custom range, inside the domain bound), `rotate` does not raise: it
computes a `28 × 28` output. -/
theorem C3_cex_rotate_ignores_custom_range :
    resultDims (rotateAugmentation (zeroImage 28) (some 10) ⟨-5, 5⟩ 0
      (fun _ _ => 1)) = some (28, 28) := by
  norm_num [rotateAugmentation, resultDims, zeroImage]

/-- **C4 (counterexample).** The claim says every transform preserves the
dimensions of inputs of any square size `N × N`.  The code hard-codes
`CANVAS_SIZE = 28`: on a `30 × 30` input, `shift` with the in-range explicit
shift `(0, 0)` returns a `28 × 28` image, not `30 × 30`. -/
theorem C4_cex_shift_forces_28 :
    resultDims (shiftAugmentation (zeroImage 30) (some 0) (some 0) ⟨4, 4⟩ 0 0)
        = some (28, 28) ∧ (28 : ℕ) ≠ 30 := by
  refine ⟨?_, by norm_num⟩
  norm_num [shiftAugmentation, resultDims, zeroImage, Image.pad, Image.slice]

/-- The sampled shift `⌊r · (2·range + 1)⌋ - range` lies in `[-range, range]`
for a draw `r ∈ [0, 1)` and a nonnegative range. -/
theorem shift_sample_bound (wr : ℤ) (r : ℚ) (hwr : 0 ≤ wr) (hr0 : 0 ≤ r)
    (hr1 : r < 1) : |⌊r * ((wr * 2 + 1 : ℤ) : ℚ)⌋ - wr| ≤ wr := by
  have hwq : (0 : ℚ) ≤ (wr : ℚ) := by exact_mod_cast hwr
  have hpos : (0 : ℚ) ≤ (wr : ℚ) * 2 + 1 := by linarith
  have h0 : (0 : ℤ) ≤ ⌊r * ((wr * 2 + 1 : ℤ) : ℚ)⌋ :=
    Int.le_floor.mpr (by push_cast; exact mul_nonneg hr0 hpos)
  have h1 : ⌊r * ((wr * 2 + 1 : ℤ) : ℚ)⌋ < wr * 2 + 1 :=
    Int.floor_lt.mpr (by push_cast; nlinarith)
  rw [abs_le]
  omega

/-- `Except.bind` on a normal result just feeds it to the continuation. -/
theorem ok_bind (a : Image) (f : Image → Except AugError Image) :
    (Except.ok a : Except AugError Image).bind f = f a := rfl

/-- With the default (empty) config and all draws in `[0, 1)`, every stage
of `augmentImage` samples an in-range parameter and returns normally, and
the final output is `28 × 28`, for any `28 × 28` input. -/
theorem augment_default_ok (img : Image) (hh : img.h = 28) (hw : img.w = 28)
    (rd : Draws) (hrd : DrawsInRange rd) :
    ∃ out, augmentImage img .empty rd = .ok out ∧ out.h = 28 ∧ out.w = 28 := by
  obtain ⟨hr0, hr1, hs0, hs1, hz0, hz1, hw0, hw1, hh0, hh1⟩ := hrd
  obtain ⟨a, ha, hah, haw⟩ :=
    rotate_resolved_ok img none ⟨-15, 15⟩ rd.rotR rd.rotG (by
      show |rd.rotR * (15 - -15) + -15| ≤ 15
      have hs := sample_mem_Icc (-15) 15 rd.rotR hr0 hr1 (by norm_num)
      rw [abs_le]
      exact ⟨hs.1, hs.2⟩)
  obtain ⟨b, hb, hbh, hbw⟩ :=
    shear_resolved_ok a none ⟨-1/5, 1/5⟩ rd.shearR rd.shearG
      (by
        show -1/5 ≤ rd.shearR * (1/5 - -1/5) + -1/5
        exact (sample_mem_Icc (-1/5) (1/5) rd.shearR hs0 hs1 (by norm_num)).1)
      (by
        show rd.shearR * (1/5 - -1/5) + -1/5 ≤ 1/5
        exact (sample_mem_Icc (-1/5) (1/5) rd.shearR hs0 hs1 (by norm_num)).2)
  obtain ⟨c, hc, hcor⟩ :=
    zoom_resolved_ok b none ⟨4/5, 6/5⟩ rd.zoomR
      (by
        show (4 : ℚ)/5 ≤ rd.zoomR * (6/5 - 4/5) + 4/5
        exact (sample_mem_Icc (4/5) (6/5) rd.zoomR hz0 hz1 (by norm_num)).1)
      (by
        show rd.zoomR * (6/5 - 4/5) + 4/5 ≤ 6/5
        exact (sample_mem_Icc (4/5) (6/5) rd.zoomR hz0 hz1 (by norm_num)).2)
  have hch : c.h = 28 := by
    rcases hcor with rfl | ⟨h1, h2⟩
    · omega
    · exact h1
  have hcw : c.w = 28 := by
    rcases hcor with rfl | ⟨h1, h2⟩
    · omega
    · exact h2
  obtain ⟨d, hd, hdh, hdw⟩ :=
    shift_resolved_ok c none none ⟨4, 4⟩ rd.shiftRW rd.shiftRH
      (by
        show |⌊rd.shiftRW * ((4 * 2 + 1 : ℤ) : ℚ)⌋ - 4| ≤ 4
        exact shift_sample_bound 4 rd.shiftRW (by norm_num) hw0 hw1)
      (by
        show |⌊rd.shiftRH * ((4 * 2 + 1 : ℤ) : ℚ)⌋ - 4| ≤ 4
        exact shift_sample_bound 4 rd.shiftRH (by norm_num) hh0 hh1)
      (by omega) (by omega)
  have e1 : rotateAugmentation img none
      (AugmentationConfig.empty.rotationRange.getD ⟨-15, 15⟩) rd.rotR rd.rotG
      = .ok a := ha
  have e2 : shearAugmentation a none
      (AugmentationConfig.empty.shearRange.getD ⟨-1/5, 1/5⟩) rd.shearR rd.shearG
      = .ok b := hb
  have e3 : zoomAugmentation b none
      (AugmentationConfig.empty.zoomRange.getD ⟨4/5, 6/5⟩) rd.zoomR = .ok c := hc
  have e4 : shiftAugmentation c none none
      (AugmentationConfig.empty.shiftRange.getD ⟨4, 4⟩) rd.shiftRW rd.shiftRH
      = .ok d := hd
  refine ⟨d, ?_, hdh, hdw⟩
  unfold augmentImage
  rw [e1, ok_bind, e2, ok_bind, e3, ok_bind, e4]

/-- **C3 (amended).** A custom range is used only to sample a missing
parameter; an explicitly supplied value is validated solely against the
fixed domain bound (±15° for rotate, [0.8, 1.2] for zoom, ±0.2 for shear).
Whatever custom range is passed — even one excluding the value — an
explicit value within the domain bound is accepted and an output computed;
no range-violation error is raised. -/
theorem C3_explicit_validated_against_domain_bound_only
    (img : Image) (rg : AxisRange) (r : ℚ) (g : ℕ → ℕ → ℚ) (a z s : ℚ)
    (ha : |a| ≤ 15) (hz1 : 4/5 ≤ z) (hz2 : z ≤ 6/5)
    (hs1 : -1/5 ≤ s) (hs2 : s ≤ 1/5) :
    augOk (rotateAugmentation img (some a) rg r g) = true ∧
    augOk (zoomAugmentation img (some z) rg r) = true ∧
    augOk (shearAugmentation img (some s) rg r g) = true := by
  refine ⟨?_, ?_, ?_⟩
  · obtain ⟨out, heq, -, -⟩ :=
      rotate_resolved_ok img (some a) rg r g (by simpa using ha)
    rw [heq]
    rfl
  · obtain ⟨out, heq, -⟩ :=
      zoom_resolved_ok img (some z) rg r (by simpa using hz1) (by simpa using hz2)
    rw [heq]
    rfl
  · obtain ⟨out, heq, -, -⟩ :=
      shear_resolved_ok img (some s) rg r g (by simpa using hs1) (by simpa using hs2)
    rw [heq]
    rfl

/-- Witness for C3: the custom range `[-0.01, 0.01]` excludes the explicit
angle 10, zoom 6/5 and shear 1/10, yet all three calls return normally. -/
theorem C3_witness :
    augOk (rotateAugmentation (zeroImage 28) (some 10) ⟨-1/100, 1/100⟩ 0
        (fun _ _ => 1)) = true ∧
    augOk (zoomAugmentation (zeroImage 28) (some (6/5)) ⟨-1/100, 1/100⟩ 0) = true ∧
    augOk (shearAugmentation (zeroImage 28) (some (1/10)) ⟨-1/100, 1/100⟩ 0
        (fun _ _ => 1)) = true :=
  C3_explicit_validated_against_domain_bound_only (zeroImage 28)
    ⟨-1/100, 1/100⟩ 0 (fun _ _ => 1) 10 (6/5) (1/10)
    (by norm_num) (by norm_num) (by norm_num) (by norm_num) (by norm_num)

/-- **C4 (amended).** For every `28 × 28` input image and every in-range
explicit parameter (draws in `[0, 1)` for the sampling `augment`), each of
rotate, shift, zoom, shear and augment returns normally with an output of
exactly the input's `28 × 28` dimensions.  (For other input sizes the claim
fails — see the counterexample — because `CANVAS_SIZE = 28` is
hard-coded.) -/
theorem C4_transforms_preserve_dims_at_28
    (img : Image) (hh : img.h = 28) (hw : img.w = 28)
    (rg : AxisRange) (srg : ShiftRange) (r r' : ℚ) (g : ℕ → ℕ → ℚ)
    (rd : Draws) (a : ℚ) (ha : |a| ≤ 15)
    (sw sh : ℤ) (hsw : |sw| ≤ 4) (hsh : |sh| ≤ 4)
    (z : ℚ) (hz1 : 4/5 ≤ z) (hz2 : z ≤ 6/5)
    (s : ℚ) (hs1 : -1/5 ≤ s) (hs2 : s ≤ 1/5)
    (hrd : DrawsInRange rd) :
    resultDims (rotateAugmentation img (some a) rg r g) = some (28, 28) ∧
    resultDims (shiftAugmentation img (some sw) (some sh) srg r r') = some (28, 28) ∧
    resultDims (zoomAugmentation img (some z) rg r) = some (28, 28) ∧
    resultDims (shearAugmentation img (some s) rg r g) = some (28, 28) ∧
    resultDims (augmentImage img .empty rd) = some (28, 28) := by
  refine ⟨?_, ?_, ?_, ?_, ?_⟩
  · obtain ⟨o, he, h1, h2⟩ :=
      rotate_resolved_ok img (some a) rg r g (by simpa using ha)
    rw [he]
    simp [resultDims, h1, h2, hh, hw]
  · obtain ⟨o, he, h1, h2⟩ :=
      shift_resolved_ok img (some sw) (some sh) srg r r'
        (by simpa using hsw) (by simpa using hsh) (by omega) (by omega)
    rw [he]
    simp [resultDims, h1, h2]
  · obtain ⟨o, he, hor⟩ :=
      zoom_resolved_ok img (some z) rg r (by simpa using hz1) (by simpa using hz2)
    rw [he]
    rcases hor with rfl | ⟨h1, h2⟩ <;> simp [resultDims, hh, hw, *]
  · obtain ⟨o, he, h1, h2⟩ :=
      shear_resolved_ok img (some s) rg r g (by simpa using hs1) (by simpa using hs2)
    rw [he]
    simp [resultDims, h1, h2, hh, hw]
  · obtain ⟨o, he, h1, h2⟩ := augment_default_ok img hh hw rd hrd
    rw [he]
    simp [resultDims, h1, h2]

/-- Witness for C4 at the boundary parameters: angle 15, shift (4, -4),
zoom 6/5, shear -1/5, and draws 1/2 for `augment`. -/
theorem C4_witness :
    resultDims (rotateAugmentation (zeroImage 28) (some 15) ⟨-15, 15⟩ 0
        (fun _ _ => 0)) = some (28, 28) ∧
    resultDims (shiftAugmentation (zeroImage 28) (some 4) (some (-4)) ⟨4, 4⟩ 0 0)
        = some (28, 28) ∧
    resultDims (zoomAugmentation (zeroImage 28) (some (6/5)) ⟨-15, 15⟩ 0)
        = some (28, 28) ∧
    resultDims (shearAugmentation (zeroImage 28) (some (-1/5)) ⟨-15, 15⟩ 0
        (fun _ _ => 0)) = some (28, 28) ∧
    resultDims (augmentImage (zeroImage 28) .empty drawsHalf) = some (28, 28) :=
  C4_transforms_preserve_dims_at_28 (zeroImage 28) rfl rfl ⟨-15, 15⟩ ⟨4, 4⟩ 0 0
    (fun _ _ => 0) drawsHalf 15 (by norm_num) 4 (-4) (by norm_num) (by norm_num)
    (6/5) (by norm_num) (by norm_num) (-1/5) (by norm_num) (by norm_num)
    (by norm_num [DrawsInRange, drawsHalf])

/-- **C5.** Every explicitly supplied out-of-domain parameter makes the
transform throw before any computation, and the error payload names the
offending value and the permitted bounds; for shift it names the violating
axis (width checked first).  In particular `shift(input, {width:5,
height:0})` throws the width violation naming 5 and the ±4 limit, and
`zoom(input, 1.5)` throws naming 1.5 and the bounds [0.8, 1.2]. -/
theorem C5_range_violation_names_value_and_bounds (img : Image) :
    (∀ (a : ℚ) (rg : AxisRange) (r : ℚ) (g : ℕ → ℕ → ℚ), 15 < |a| →
      rotateAugmentation img (some a) rg r g =
        .error (.rangeViolation "Rotation" a (-15) 15)) ∧
    (∀ (w h : ℤ) (srg : ShiftRange) (r r' : ℚ), 4 < |w| →
      shiftAugmentation img (some w) (some h) srg r r' =
        .error (.rangeViolation "Width shift" (w : ℚ) (-4) 4)) ∧
    (∀ (w h : ℤ) (srg : ShiftRange) (r r' : ℚ), |w| ≤ 4 → 4 < |h| →
      shiftAugmentation img (some w) (some h) srg r r' =
        .error (.rangeViolation "Height shift" (h : ℚ) (-4) 4)) ∧
    (∀ (z : ℚ) (rg : AxisRange) (r : ℚ), z < 4/5 ∨ 6/5 < z →
      zoomAugmentation img (some z) rg r =
        .error (.rangeViolation "Zoom" z (4/5) (6/5))) ∧
    (∀ (s : ℚ) (rg : AxisRange) (r : ℚ) (g : ℕ → ℕ → ℚ), s < -1/5 ∨ 1/5 < s →
      shearAugmentation img (some s) rg r g =
        .error (.rangeViolation "Shear" s (-1/5) (1/5))) ∧
    shiftAugmentation img (some 5) (some 0) ⟨4, 4⟩ 0 0 =
      .error (.rangeViolation "Width shift" 5 (-4) 4) ∧
    zoomAugmentation img (some (3/2)) ⟨4/5, 6/5⟩ 0 =
      .error (.rangeViolation "Zoom" (3/2) (4/5) (6/5)) := by
  have hrot : ∀ (a : ℚ) (rg : AxisRange) (r : ℚ) (g : ℕ → ℕ → ℚ), 15 < |a| →
      rotateAugmentation img (some a) rg r g =
        .error (.rangeViolation "Rotation" a (-15) 15) := by
    intro a rg r g hgt
    unfold rotateAugmentation
    rw [Option.getD_some, if_pos hgt]
  have hsw : ∀ (w h : ℤ) (srg : ShiftRange) (r r' : ℚ), 4 < |w| →
      shiftAugmentation img (some w) (some h) srg r r' =
        .error (.rangeViolation "Width shift" (w : ℚ) (-4) 4) := by
    intro w h srg r r' hgt
    unfold shiftAugmentation
    rw [Option.getD_some, if_pos hgt]
  have hsh : ∀ (w h : ℤ) (srg : ShiftRange) (r r' : ℚ), |w| ≤ 4 → 4 < |h| →
      shiftAugmentation img (some w) (some h) srg r r' =
        .error (.rangeViolation "Height shift" (h : ℚ) (-4) 4) := by
    intro w h srg r r' hle hgt
    unfold shiftAugmentation
    rw [Option.getD_some, Option.getD_some, if_neg (not_lt.mpr hle), if_pos hgt]
  have hz : ∀ (z : ℚ) (rg : AxisRange) (r : ℚ), z < 4/5 ∨ 6/5 < z →
      zoomAugmentation img (some z) rg r =
        .error (.rangeViolation "Zoom" z (4/5) (6/5)) := by
    intro z rg r hout
    unfold zoomAugmentation
    rw [Option.getD_some, if_pos hout]
  have hshear : ∀ (s : ℚ) (rg : AxisRange) (r : ℚ) (g : ℕ → ℕ → ℚ),
      s < -1/5 ∨ 1/5 < s →
      shearAugmentation img (some s) rg r g =
        .error (.rangeViolation "Shear" s (-1/5) (1/5)) := by
    intro s rg r g hout
    unfold shearAugmentation
    rw [Option.getD_some, if_pos hout]
  refine ⟨hrot, hsw, hsh, hz, hshear, ?_, ?_⟩
  · have := hsw 5 0 ⟨4, 4⟩ 0 0 (by norm_num)
    rw [this]
    norm_num
  · exact hz (3/2) ⟨4/5, 6/5⟩ 0 (by norm_num)

/-- Witness for C5: the angle 20 exceeds the ±15° domain bound and rotate
throws the payload naming 20 and the bounds. -/
theorem C5_witness :
    rotateAugmentation (zeroImage 28) (some 20) ⟨-15, 15⟩ 0 (fun _ _ => 0) =
      .error (.rangeViolation "Rotation" 20 (-15) 15) :=
  (C5_range_violation_names_value_and_bounds (zeroImage 28)).1 20 ⟨-15, 15⟩ 0
    (fun _ _ => 0) (by norm_num)

/-- **C6.** `augmentImage` is exactly the fixed four-stage chain
rotation → shear → zoom → shift: whenever the first three stages return
normally, the pipeline's value is the shift stage applied to the zoom
stage's output, which consumed the shear stage's output, which consumed the
rotation stage's output; every stage samples (no explicit parameter) and
uses the corresponding slice of the config, falling back to that
transform's own default range when the slice is absent. -/
theorem C6_pipeline_is_rotate_shear_zoom_shift
    (img : Image) (config : AugmentationConfig) (rd : Draws) (a b c : Image)
    (h1 : rotateAugmentation img none (config.rotationRange.getD ⟨-15, 15⟩)
        rd.rotR rd.rotG = .ok a)
    (h2 : shearAugmentation a none (config.shearRange.getD ⟨-1/5, 1/5⟩)
        rd.shearR rd.shearG = .ok b)
    (h3 : zoomAugmentation b none (config.zoomRange.getD ⟨4/5, 6/5⟩)
        rd.zoomR = .ok c) :
    augmentImage img config rd =
      shiftAugmentation c none none (config.shiftRange.getD ⟨4, 4⟩)
        rd.shiftRW rd.shiftRH := by
  unfold augmentImage
  rw [h1, ok_bind, h2, ok_bind, h3, ok_bind]

/-- Witness for C6: with all uniform draws 1/2 the first three stages of the
default-config pipeline take their clone paths on the all-zero image, and
the pipeline equals the shift stage on that image. -/
theorem C6_witness :
    augmentImage (zeroImage 28) .empty drawsHalf =
      shiftAugmentation (zeroImage 28) none none
        (AugmentationConfig.empty.shiftRange.getD ⟨4, 4⟩)
        drawsHalf.shiftRW drawsHalf.shiftRH :=
  C6_pipeline_is_rotate_shear_zoom_shift (zeroImage 28) .empty drawsHalf
    (zeroImage 28) (zeroImage 28) (zeroImage 28)
    (by norm_num [rotateAugmentation, drawsHalf, AugmentationConfig.empty,
      Option.getD])
    (by norm_num [shearAugmentation, drawsHalf, AugmentationConfig.empty,
      Option.getD])
    (by norm_num [zoomAugmentation, drawsHalf, AugmentationConfig.empty,
      Option.getD])

/-- **C8.** On a `28 × 28` input, `augmentImage` with the default random
configuration (empty config: no explicit parameters, no custom ranges)
never throws and always returns a `28 × 28` image, for every outcome of the
uniform draws in `[0, 1)` and every normal field; hence any number of
consecutive invocations on the same input — in particular 100 — all return
normally with the original dimensions. -/
theorem C8_default_augment_never_raises (img : Image) (hh : img.h = 28)
    (hw : img.w = 28) (rds : List Draws) (hrds : ∀ rd ∈ rds, DrawsInRange rd) :
    ∀ e ∈ rds.map (augmentImage img .empty), resultDims e = some (28, 28) := by
  intro e he
  rw [List.mem_map] at he
  obtain ⟨rd, hmem, rfl⟩ := he
  obtain ⟨out, heq, h1, h2⟩ := augment_default_ok img hh hw rd (hrds rd hmem)
  rw [heq]
  simp [resultDims, h1, h2]

/-- Witness for C8: one invocation of the 100-element run on the all-zero
image with all draws 1/2 returns normally at `28 × 28`. -/
theorem C8_witness :
    resultDims (augmentImage (zeroImage 28) .empty drawsHalf) = some (28, 28) :=
  C8_default_augment_never_raises (zeroImage 28) rfl rfl
    (List.replicate 100 drawsHalf)
    (by
      intro rd hrd
      rw [List.eq_of_mem_replicate hrd]
      norm_num [DrawsInRange, drawsHalf])
    (augmentImage (zeroImage 28) .empty drawsHalf)
    (by
      rw [List.mem_map]
      exact ⟨drawsHalf, List.mem_replicate.mpr ⟨by norm_num, rfl⟩, rfl⟩)

/-- With the collapsed rotation range `{0, 0}` the sampled angle is 0 for
any draw, and rotate clones. -/
theorem rotate_collapsed (img : Image) (r : ℚ) (g : ℕ → ℕ → ℚ) :
    rotateAugmentation img none ⟨0, 0⟩ r g = .ok img := by
  norm_num [rotateAugmentation, Option.getD]

/-- With the collapsed shear range `{0, 0}` the sampled factor is 0 for any
draw, and shear clones. -/
theorem shear_collapsed (img : Image) (r : ℚ) (g : ℕ → ℕ → ℚ) :
    shearAugmentation img none ⟨0, 0⟩ r g = .ok img := by
  norm_num [shearAugmentation, Option.getD]

/-- With the collapsed zoom range `{1, 1}` the sampled factor is 1 for any
draw, and zoom clones. -/
theorem zoom_collapsed (img : Image) (r : ℚ) :
    zoomAugmentation img none ⟨1, 1⟩ r = .ok img := by
  norm_num [zoomAugmentation, Option.getD]

/-- With the collapsed shift range `{width: 0, height: 0}` both sampled
shifts are `⌊r⌋ = 0` for draws in `[0, 1)`, so the pad amounts are all 0
and the slice returns the `28 × 28` corner window, whose in-bounds pixels
are the input's. -/
theorem shift_collapsed (img : Image) (hH : 28 ≤ img.h) (hW : 28 ≤ img.w)
    (r r' : ℚ) (h1 : 0 ≤ r) (h2 : r < 1) (h3 : 0 ≤ r') (h4 : r' < 1) :
    ∃ out, shiftAugmentation img none none ⟨0, 0⟩ r r' = .ok out ∧
      out.h = 28 ∧ out.w = 28 ∧ ∀ y < 28, ∀ x < 28, out.pix y x = img.pix y x := by
  have hfr : ⌊r * (((0 : ℤ) * 2 + 1 : ℤ) : ℚ)⌋ - (0 : ℤ) = 0 := by
    have hc : (((0 : ℤ) * 2 + 1 : ℤ) : ℚ) = 1 := by norm_num
    rw [hc, mul_one, sub_zero]
    exact Int.floor_eq_zero_iff.mpr (by rw [Set.mem_Ico]; exact ⟨h1, h2⟩)
  have hfr' : ⌊r' * (((0 : ℤ) * 2 + 1 : ℤ) : ℚ)⌋ - (0 : ℤ) = 0 := by
    have hc : (((0 : ℤ) * 2 + 1 : ℤ) : ℚ) = 1 := by norm_num
    rw [hc, mul_one, sub_zero]
    exact Int.floor_eq_zero_iff.mpr (by rw [Set.mem_Ico]; exact ⟨h3, h4⟩)
  unfold shiftAugmentation
  rw [Option.getD_none, Option.getD_none]
  rw [show ((⟨0, 0⟩ : ShiftRange).width) = (0 : ℤ) from rfl,
    show ((⟨0, 0⟩ : ShiftRange).height) = (0 : ℤ) from rfl, hfr, hfr']
  rw [if_neg (by norm_num), if_neg (by norm_num)]
  simp only [lt_self_iff_false, if_false]
  unfold Image.pad Image.slice
  rw [if_pos (by constructor <;> simp <;> omega)]
  refine ⟨_, rfl, rfl, rfl, ?_⟩
  intro y hy x hx
  simp only
  rw [if_pos (by omega)]
  norm_num

/-- **C7 (counterexample).** The claim quantifies over every input image,
but `shift` hard-codes the `28 × 28` output window: on a `30 × 30` input,
`augment` with all ranges collapsed to the identity (rotation `{0,0}`,
shift `{0,0}`, zoom `{1,1}`, shear `{0,0}`) returns a `28 × 28` image,
which cannot equal the `30 × 30` input. -/
theorem C7_cex_collapsed_augment_changes_30_input :
    resultDims (augmentImage (zeroImage 30) collapsedConfig drawsZero) =
        some (28, 28) ∧
      ((28, 28) ≠ ((zeroImage 30).h, (zeroImage 30).w)) := by
  constructor
  · have e1 : rotateAugmentation (zeroImage 30) none
        (collapsedConfig.rotationRange.getD ⟨-15, 15⟩) drawsZero.rotR
        drawsZero.rotG = .ok (zeroImage 30) := rotate_collapsed _ _ _
    have e2 : shearAugmentation (zeroImage 30) none
        (collapsedConfig.shearRange.getD ⟨-1/5, 1/5⟩) drawsZero.shearR
        drawsZero.shearG = .ok (zeroImage 30) := shear_collapsed _ _ _
    have e3 : zoomAugmentation (zeroImage 30) none
        (collapsedConfig.zoomRange.getD ⟨4/5, 6/5⟩) drawsZero.zoomR
        = .ok (zeroImage 30) := zoom_collapsed _ _
    obtain ⟨out, e4, hoh, how, -⟩ :=
      shift_collapsed (zeroImage 30) (by norm_num [zeroImage])
        (by norm_num [zeroImage]) 0 0 (by norm_num) (by norm_num)
        (by norm_num) (by norm_num)
    have e4' : shiftAugmentation (zeroImage 30) none none
        (collapsedConfig.shiftRange.getD ⟨4, 4⟩) drawsZero.shiftRW
        drawsZero.shiftRH = .ok out := e4
    unfold augmentImage
    rw [e1, ok_bind, e2, ok_bind, e3, ok_bind, e4']
    simp [resultDims, hoh, how]
  · norm_num [zeroImage]

/-- **C7 (amended).** For every `28 × 28` input image (the hard-coded
canvas size), `augment` with all ranges collapsed to the identity returns
an image equal to the input — same dimensions and the same intensity at
every in-bounds pixel — for every outcome of the draws in `[0, 1)`: each
of the first three stages samples its collapsed parameter (angle 0, shear
0, zoom 1) and clones, and the shift stage samples `(0, 0)` and returns
the unchanged `28 × 28` window. -/
theorem C7_collapsed_augment_is_identity_at_28 (img : Image)
    (hh : img.h = 28) (hw : img.w = 28) (rd : Draws) (hrd : DrawsInRange rd) :
    resultEqv (augmentImage img collapsedConfig rd) img := by
  obtain ⟨hr0, hr1, hs0, hs1, hz0, hz1, hw0, hw1, hh0, hh1⟩ := hrd
  have e1 : rotateAugmentation img none
      (collapsedConfig.rotationRange.getD ⟨-15, 15⟩) rd.rotR rd.rotG
      = .ok img := rotate_collapsed _ _ _
  have e2 : shearAugmentation img none
      (collapsedConfig.shearRange.getD ⟨-1/5, 1/5⟩) rd.shearR rd.shearG
      = .ok img := shear_collapsed _ _ _
  have e3 : zoomAugmentation img none
      (collapsedConfig.zoomRange.getD ⟨4/5, 6/5⟩) rd.zoomR = .ok img :=
    zoom_collapsed _ _
  obtain ⟨out, e4, hoh, how, hpix⟩ :=
    shift_collapsed img (by omega) (by omega) rd.shiftRW rd.shiftRH
      hw0 hw1 hh0 hh1
  have e4' : shiftAugmentation img none none
      (collapsedConfig.shiftRange.getD ⟨4, 4⟩) rd.shiftRW rd.shiftRH
      = .ok out := e4
  unfold augmentImage
  rw [e1, ok_bind, e2, ok_bind, e3, ok_bind, e4']
  show out.eqv img
  refine ⟨by omega, by omega, ?_⟩
  intro y hy x hx
  exact hpix y (by omega) x (by omega)

/-- Witness for C7 (amended): on the all-zero `28 × 28` image with all
draws 0, the collapsed-config pipeline returns the input. -/
theorem C7_witness :
    resultEqv (augmentImage (zeroImage 28) collapsedConfig drawsZero)
      (zeroImage 28) :=
  C7_collapsed_augment_is_identity_at_28 (zeroImage 28) rfl rfl drawsZero
    (by norm_num [DrawsInRange, drawsZero])

/-- `clipByValue(0, 1)` always lands in `[0, 1]`. -/
theorem clip01_mem (q : ℚ) : 0 ≤ clip01 q ∧ clip01 q ≤ 1 :=
  ⟨le_min zero_le_one (le_max_left 0 q), min_le_left 1 (max 0 q)⟩

/-- A linear blend `a + (b - a)·t` of two unit-interval values with a
unit-interval weight stays in the unit interval. -/
theorem lerp_mem_unit (a b t : ℚ) (ha0 : 0 ≤ a) (ha1 : a ≤ 1) (hb0 : 0 ≤ b)
    (hb1 : b ≤ 1) (ht0 : 0 ≤ t) (ht1 : t ≤ 1) :
    0 ≤ a + (b - a) * t ∧ a + (b - a) * t ≤ 1 := by
  constructor <;> nlinarith

/-- Zero-padding keeps all intensities in `[0, 1]`. -/
theorem pad_inUnit (img : Image) (himg : img.inUnit) (t b l rr : ℕ) :
    (img.pad t b l rr).inUnit := by
  intro y hy x hx
  simp only [Image.pad]
  split_ifs with hcond
  · exact himg _ (by omega) _ (by omega)
  · norm_num

/-- A successful slice keeps all intensities in `[0, 1]`. -/
theorem slice_result_inUnit (img : Image) (himg : img.inUnit)
    (b₁ b₂ sy sx : ℕ) : resultInUnit (img.slice b₁ b₂ sy sx) := by
  unfold Image.slice
  split_ifs with hg
  · intro y hy x hx
    have hy' : y < sy := hy
    have hx' : x < sx := hx
    exact himg _ (by omega) _ (by omega)
  · trivial

/-- Bilinear resampling of a nonempty unit-range image reads only in-bounds
pixels and blends them convexly, so it stays in `[0, 1]`. -/
theorem resizeBilinear_inUnit (img : Image) (himg : img.inUnit)
    (h0 : 0 < img.h) (w0 : 0 < img.w) (nh nw : ℕ) :
    (img.resizeBilinear nh nw).inUnit := by
  intro y hy x hx
  simp only [Image.resizeBilinear] at hy hx ⊢
  have hnh : 0 < nh := Nat.lt_of_le_of_lt (Nat.zero_le y) hy
  have hnw : 0 < nw := Nat.lt_of_le_of_lt (Nat.zero_le x) hx
  have hnhq : (0 : ℚ) < (nh : ℚ) := by exact_mod_cast hnh
  have hnwq : (0 : ℚ) < (nw : ℚ) := by exact_mod_cast hnw
  have hfr0 : 0 ≤ (y : ℚ) * (img.h : ℚ) / (nh : ℚ) := by positivity
  have hfc0 : 0 ≤ (x : ℚ) * (img.w : ℚ) / (nw : ℚ) := by positivity
  have hfrlt : (y : ℚ) * (img.h : ℚ) / (nh : ℚ) < (img.h : ℚ) := by
    rw [div_lt_iff₀ hnhq]
    have hy' : (y : ℚ) < (nh : ℚ) := by exact_mod_cast hy
    have hh' : (0 : ℚ) < (img.h : ℚ) := by exact_mod_cast h0
    nlinarith
  have hfclt : (x : ℚ) * (img.w : ℚ) / (nw : ℚ) < (img.w : ℚ) := by
    rw [div_lt_iff₀ hnwq]
    have hx' : (x : ℚ) < (nw : ℚ) := by exact_mod_cast hx
    have hw' : (0 : ℚ) < (img.w : ℚ) := by exact_mod_cast w0
    nlinarith
  have hfl0 : 0 ≤ ⌊(y : ℚ) * (img.h : ℚ) / (nh : ℚ)⌋ := Int.floor_nonneg.mpr hfr0
  have hflh : ⌊(y : ℚ) * (img.h : ℚ) / (nh : ℚ)⌋ < (img.h : ℤ) := by
    rw [Int.floor_lt]
    push_cast
    exact hfrlt
  have hcl0 : 0 ≤ ⌊(x : ℚ) * (img.w : ℚ) / (nw : ℚ)⌋ := Int.floor_nonneg.mpr hfc0
  have hclw : ⌊(x : ℚ) * (img.w : ℚ) / (nw : ℚ)⌋ < (img.w : ℤ) := by
    rw [Int.floor_lt]
    push_cast
    exact hfclt
  have hr0lt : (⌊(y : ℚ) * (img.h : ℚ) / (nh : ℚ)⌋).toNat < img.h := by omega
  have hr1lt : min (img.h - 1) (⌈(y : ℚ) * (img.h : ℚ) / (nh : ℚ)⌉).toNat
      < img.h := by omega
  have hc0lt : (⌊(x : ℚ) * (img.w : ℚ) / (nw : ℚ)⌋).toNat < img.w := by omega
  have hc1lt : min (img.w - 1) (⌈(x : ℚ) * (img.w : ℚ) / (nw : ℚ)⌉).toNat
      < img.w := by omega
  have hdr0 : 0 ≤ (y : ℚ) * (img.h : ℚ) / (nh : ℚ)
      - (⌊(y : ℚ) * (img.h : ℚ) / (nh : ℚ)⌋ : ℚ) := by
    have := Int.floor_le ((y : ℚ) * (img.h : ℚ) / (nh : ℚ))
    linarith
  have hdr1 : (y : ℚ) * (img.h : ℚ) / (nh : ℚ)
      - (⌊(y : ℚ) * (img.h : ℚ) / (nh : ℚ)⌋ : ℚ) ≤ 1 := by
    have := Int.lt_floor_add_one ((y : ℚ) * (img.h : ℚ) / (nh : ℚ))
    linarith
  have hdc0 : 0 ≤ (x : ℚ) * (img.w : ℚ) / (nw : ℚ)
      - (⌊(x : ℚ) * (img.w : ℚ) / (nw : ℚ)⌋ : ℚ) := by
    have := Int.floor_le ((x : ℚ) * (img.w : ℚ) / (nw : ℚ))
    linarith
  have hdc1 : (x : ℚ) * (img.w : ℚ) / (nw : ℚ)
      - (⌊(x : ℚ) * (img.w : ℚ) / (nw : ℚ)⌋ : ℚ) ≤ 1 := by
    have := Int.lt_floor_add_one ((x : ℚ) * (img.w : ℚ) / (nw : ℚ))
    linarith
  obtain ⟨htl0, htl1⟩ := himg _ hr0lt _ hc0lt
  obtain ⟨htr0, htr1⟩ := himg _ hr0lt _ hc1lt
  obtain ⟨hbl0, hbl1⟩ := himg _ hr1lt _ hc0lt
  obtain ⟨hbr0, hbr1⟩ := himg _ hr1lt _ hc1lt
  have hA := lerp_mem_unit _ _ _ htl0 htl1 htr0 htr1 hdc0 hdc1
  have hB := lerp_mem_unit _ _ _ hbl0 hbl1 hbr0 hbr1 hdc0 hdc1
  exact lerp_mem_unit _ _ _ hA.1 hA.2 hB.1 hB.2 hdr0 hdr1

/-- Rotate never leaves `[0, 1]`: it throws, clones, or clips. -/
theorem rotate_result_inUnit (img : Image) (himg : img.inUnit)
    (af : Option ℚ) (rg : AxisRange) (r : ℚ) (g : ℕ → ℕ → ℚ) :
    resultInUnit (rotateAugmentation img af rg r g) := by
  simp only [rotateAugmentation]
  split_ifs with h1 h2
  · trivial
  · exact himg
  · intro y hy x hx
    exact clip01_mem _

/-- Shear never leaves `[0, 1]`: it throws, clones, or clips. -/
theorem shear_result_inUnit (img : Image) (himg : img.inUnit)
    (sf : Option ℚ) (rg : AxisRange) (r : ℚ) (g : ℕ → ℕ → ℚ) :
    resultInUnit (shearAugmentation img sf rg r g) := by
  simp only [shearAugmentation]
  split_ifs with h1 h2
  · trivial
  · exact himg
  · intro y hy x hx
    exact clip01_mem _

/-- Shift never leaves `[0, 1]`: it throws, or zero-pads and slices. -/
theorem shift_result_inUnit (img : Image) (himg : img.inUnit)
    (sw sh : Option ℤ) (srg : ShiftRange) (r r' : ℚ) :
    resultInUnit (shiftAugmentation img sw sh srg r r') := by
  simp only [shiftAugmentation]
  split_ifs <;>
    first
    | trivial
    | exact slice_result_inUnit _ (pad_inUnit img himg _ _ _ _) _ _ _ _

/-- Zoom never leaves `[0, 1]`: it throws, clones, or resamples bilinearly
(a convex blend of in-bounds pixels) and then crops or zero-pads. -/
theorem zoom_result_inUnit (img : Image) (himg : img.inUnit)
    (h0 : 0 < img.h) (w0 : 0 < img.w) (zf : Option ℚ) (rg : AxisRange)
    (r : ℚ) : resultInUnit (zoomAugmentation img zf rg r) := by
  simp only [zoomAugmentation]
  split_ifs with h1 h2 h3
  · trivial
  · exact himg
  · exact slice_result_inUnit _
      (resizeBilinear_inUnit img himg h0 w0 _ _) _ _ _ _
  · exact pad_inUnit _ (resizeBilinear_inUnit img himg h0 w0 _ _) _ _ _ _

/-- **C10.** For every nonempty input image with all intensities in
`[0, 1]` and any parameters at all (explicit or sampled, in range or not),
whenever rotate, shift, zoom or shear returns an image, all its
intensities lie in `[0, 1]`: rotate and shear clip to `[0, 1]`, shift only
moves pixels and fills with 0, and zoom bilinearly blends in-bounds pixels
convexly and fills with 0. -/
theorem C10_transforms_stay_in_unit_range (img : Image) (himg : img.inUnit)
    (h0 : 0 < img.h) (w0 : 0 < img.w) (af : Option ℚ) (sw sh : Option ℤ)
    (zf : Option ℚ) (sf : Option ℚ) (rg : AxisRange) (srg : ShiftRange)
    (r r' : ℚ) (g : ℕ → ℕ → ℚ) :
    resultInUnit (rotateAugmentation img af rg r g) ∧
    resultInUnit (shiftAugmentation img sw sh srg r r') ∧
    resultInUnit (zoomAugmentation img zf rg r) ∧
    resultInUnit (shearAugmentation img sf rg r g) :=
  ⟨rotate_result_inUnit img himg af rg r g,
    shift_result_inUnit img himg sw sh srg r r',
    zoom_result_inUnit img himg h0 w0 zf rg r,
    shear_result_inUnit img himg sf rg r g⟩

/-- Witness for C10 on the one-bright-pixel image at boundary parameters:
angle 15, shift (4, -4), zoom 6/5, shear -1/5, unit normal field. -/
theorem C10_witness :
    resultInUnit (rotateAugmentation onePixelImage (some 15) ⟨-15, 15⟩ 0
        (fun _ _ => 1)) ∧
    resultInUnit (shiftAugmentation onePixelImage (some 4) (some (-4)) ⟨4, 4⟩
        0 0) ∧
    resultInUnit (zoomAugmentation onePixelImage (some (6/5)) ⟨-15, 15⟩ 0) ∧
    resultInUnit (shearAugmentation onePixelImage (some (-1/5)) ⟨-15, 15⟩ 0
        (fun _ _ => 1)) :=
  C10_transforms_stay_in_unit_range onePixelImage
    (by
      intro y hy x hx
      simp only [onePixelImage]
      split_ifs <;> norm_num)
    (by norm_num [onePixelImage]) (by norm_num [onePixelImage])
    (some 15) (some 4) (some (-4)) (some (6/5)) (some (-1/5)) ⟨-15, 15⟩
    ⟨4, 4⟩ 0 0 (fun _ _ => 1)
